import Mathlib

/-!
Shallow embedding of the fanvue-sync repository core, with theorems checking
the natural-language specification against the code.

Source files modelled:
- fanvue_common/store.py        (TransactionStore: purchases table, sync cursor)
- fanvue_common/sync.py         (SyncEngine: rule evaluation, per-engine caches)
- fanvue_discord_sync/offer_store.py (OfferStore: sent_offers table)
- fanvue_matrix_sync/bot.py     (enforce_room membership diff)
- fanvue_discord_sync/bot.py    (sync_fanvue_roles role diff)
- fanvue_discord_sync/discord_oauth.py (OAuth state handling, token upsert)

SQLite tables are modelled as lists of rows; the engine's HTTP client is
modelled as a record of pure functions describing the upstream snapshot;
generator streams are lists, with an optional error position modelling a
mid-stream exception.
-/

namespace FanvueSync

/-- One earnings-stream event as consumed by TransactionStore.sync_earnings.
postUuid models transaction.get('postUuid') (absent -> none); userUuid models
(transaction.get('user') or transaction.get('sender'))['uuid'] after the
code's presence guards (absent user or missing 'uuid' key -> none); date
models transaction.get('date'). -/
structure Tx where
  postUuid : Option String
  userUuid : Option String
  date : Option String
deriving DecidableEq

/-- State of the transactions.db store: the purchases table
(post_uuid, user_uuid, purchase_date) and the singleton sync_state row
last_sync_date (NULL modelled as none). -/
structure StoreState where
  purchases : List (String × String × Option String)
  cursor : Option String
deriving DecidableEq

/-- The store right after _init_db: empty purchases, NULL cursor. -/
def initStore : StoreState := ⟨[], none⟩

/-- Whether a row with primary key (post_uuid, user_uuid) exists. -/
def hasPurchase (ps : List (String × String × Option String)) (p u : String) : Bool :=
  ps.any (fun r => r.1 == p && r.2.1 == u)

/-- TransactionStore.add_purchase: INSERT OR IGNORE INTO purchases with
primary key (post_uuid, user_uuid); a conflicting insert is a silent no-op. -/
def add_purchase (ps : List (String × String × Option String)) (p u : String)
    (d : Option String) : List (String × String × Option String) :=
  if hasPurchase ps p u then ps else ps ++ [(p, u, d)]

/-- Number of purchase rows with key (p, u). -/
def countPurchase (ps : List (String × String × Option String)) (p u : String) : Nat :=
  ps.countP (fun r => r.1 == p && r.2.1 == u)

/-- TransactionStore.get_unlockers: user_uuids of rows whose post_uuid matches. -/
def get_unlockers (ps : List (String × String × Option String)) (post : String) :
    Finset String :=
  (ps.filterMap (fun r => if r.1 == post then some r.2.1 else none)).toFinset

/-- The extraction guards of the sync_earnings loop body: skip events whose
postUuid is missing or falsy (empty string), or whose user record/uuid is
missing; otherwise yield (post_uuid, user_uuid, date). -/
def extractTriple (t : Tx) : Option (String × String × Option String) :=
  match t.postUuid with
  | none => none
  | some p =>
    if p = "" then none
    else
      match t.userUuid with
      | none => none
      | some u => some (p, u, t.date)

/-- The date of an event as seen by the cursor logic: only events passing the
extraction guards are reached, and only truthy (nonempty) date strings are
considered (Python: if date_str:). -/
def txDate (t : Tx) : Option String :=
  match extractTriple t with
  | none => none
  | some r =>
    match r.2.2 with
    | none => none
    | some d => if d = "" then none else some d

/-- One step of the running maximum: if not max_date or date_str > max_date:
max_date = date_str. A None or empty max_date is falsy and is replaced. -/
def cursorStep (m : Option String) (d : String) : Option String :=
  match m with
  | none => some d
  | some mv => if mv = "" then some d else if mv < d then some d else m

/-- The max_date accumulator after the loop: fold of cursorStep over the
dates of the processed events, starting from the stored cursor. -/
def syncMax (c : Option String) (ts : List Tx) : Option String :=
  ts.foldl (fun m t =>
    match txDate t with
    | none => m
    | some d => cursorStep m d) c

/-- Insert one event into the purchases table (the add_purchase call of the
loop body), after the extraction guards. -/
def insertTx (st : StoreState) (t : Tx) : StoreState :=
  match extractTriple t with
  | none => st
  | some r => { st with purchases := add_purchase st.purchases r.1 r.2.1 r.2.2 }

/-- The prefix of the stream actually yielded: errAt = some k models the
upstream generator raising after yielding k events (the exception is caught
by the outer try/except, which logs and returns). -/
def processedEvents (events : List Tx) (errAt : Option Nat) : List Tx :=
  match errAt with
  | none => events
  | some k => events.take k

/-- TransactionStore.sync_earnings: insert every extracted event idempotently;
afterwards, only when the stream completed without an exception, update the
cursor if max_date is truthy and differs from the stored cursor. On an
exception the update_last_sync_date call is skipped (it sits after the loop
inside the try block) but the already-committed inserts remain. -/
def sync_earnings (st : StoreState) (events : List Tx) (errAt : Option Nat) :
    StoreState :=
  let processed := processedEvents events errAt
  let st1 := processed.foldl insertTx st
  match errAt with
  | some _ => st1
  | none =>
    match syncMax st.cursor processed with
    | none => st1
    | some m =>
      if m = "" then st1
      else if st.cursor = some m then st1
      else { st1 with cursor := some m }

/-- The cursor left by a clean (exception-free) pass, as a standalone
function of the old cursor and the event list: the truthy-and-changed check
of sync_earnings around update_last_sync_date. -/
def newCursor (c : Option String) (events : List Tx) : Option String :=
  match syncMax c events with
  | none => c
  | some m => if m = "" then c else if c = some m then c else some m

/-- Order on stored cursors: NULL is the bottom element, otherwise
lexicographic string order (ISO timestamps compare lexically). -/
def cursorLE : Option String → Option String → Prop
  | none, _ => True
  | some _, none => False
  | some a, some b => a ≤ b

/-- Strict version of cursorLE. -/
def cursorLT : Option String → Option String → Prop
  | none, none => False
  | none, some _ => True
  | some _, none => False
  | some a, some b => a < b

/-- The dates the cursor logic observed during a pass. -/
def passDates (ts : List Tx) : List String := ts.filterMap txDate

/-! ### OfferStore (fanvue_discord_sync/offer_store.py) -/

/-- One row of the sent_offers table. In the schema user_id is declared
TEXT PRIMARY KEY on its own; entitlement_id and sent_at are plain columns. -/
structure OfferRow where
  user_id : String
  entitlement_id : String
  sent_at : String
deriving DecidableEq

/-- OfferStore.has_received_offer: SELECT 1 FROM sent_offers WHERE
user_id = ? AND entitlement_id = ? - the read path filters on the pair. -/
def has_received_offer (db : List OfferRow) (u e : String) : Bool :=
  db.any (fun r => r.user_id == u && r.entitlement_id == e)

/-- OfferStore.record_offer: plain INSERT INTO sent_offers. Because the
table's primary key is user_id alone, the insert raises sqlite3.IntegrityError
whenever any row for that user already exists, regardless of entitlement_id;
the except branch logs the error and leaves the table unchanged (the error is
never surfaced to the caller). -/
def record_offer (db : List OfferRow) (u e t : String) : List OfferRow :=
  if db.any (fun r => r.user_id == u) then db else db ++ [⟨u, e, t⟩]

/-! ### Reconciliation diffs (matrix bot.enforce_room / discord bot.sync_fanvue_roles) -/

/-- FanvueBot.enforce_room membership computation: discard the bot's own
user id from the current members, then to_invite = allowed - current,
to_kick = current - allowed; when the resolved on_expiry action is the
string ignore, to_kick is replaced by the empty set (only a log entry). -/
def enforce_room_diff (current allowed : Finset String) (bot : String)
    (action : String) : Finset String × Finset String :=
  let current1 := current.erase bot
  let to_invite := allowed \ current1
  let to_kick := current1 \ allowed
  (to_invite, if action = "ignore" then ∅ else to_kick)

/-- Effect on the room roster when every grant/revoke of the pass succeeds:
invited users join, kicked users leave. -/
def apply_room (current : Finset String) (d : Finset String × Finset String) :
    Finset String :=
  (current ∪ d.1) \ d.2

/-- DiscordBot.sync_fanvue_roles per-role diff: to_add = target_ids -
current_members_with_role, to_remove = current_members_with_role - target_ids.
No id (in particular not the bot's own) is excluded before diffing. -/
def discord_role_diff (target current : Finset Nat) : Finset Nat × Finset Nat :=
  (target \ current, current \ target)

/-- The removals the discord bot actually performs: the resolved on_expiry
action ignore only logs; kick and the default remove_role both take the
member out of the role's member set. -/
def discord_effective_remove (action : String) (toRemove : Finset Nat) : Finset Nat :=
  if action = "ignore" then ∅ else toRemove

/-- Effect on the role member set when every applied operation succeeds. -/
def apply_role (current : Finset Nat) (action : String)
    (d : Finset Nat × Finset Nat) : Finset Nat :=
  (current ∪ d.1) \ discord_effective_remove action d.2

/-! ### Discord OAuth (fanvue_discord_sync/discord_oauth.py)

The opaque state string is generated as urlsafe_b64encode(state_data) where
state_data = fanvueUuid + ":" + entropy; the base64 layer is a bijection on
well-formed encodings, so the model works directly on state_data (a base64
decode failure and an empty decoded uuid both land in the none branch of
decode_state, matching the except/falsy paths of _decode_state and the
not-fanvue_uuid check of exchange_code). -/

/-- The token response of the identity provider's POST /token endpoint;
expires_in is optional (token_data.get) with default 604800 applied at the
store site. -/
structure TokenData where
  access_token : String
  refresh_token : Option String
  expires_in : Option Nat
deriving DecidableEq

/-- One row of the discord_tokens table (primary key fanvue_uuid). -/
structure TokenRow where
  fanvue_uuid : String
  discord_user_id : String
  access_token : String
  refresh_token : Option String
  token_expiry : Nat
  created_at : String
  updated_at : String
deriving DecidableEq

/-- _generate_state without the base64 wrapper: fanvueUuid + ":" + entropy. -/
def generate_state (fanvue_uuid entropy : String) : String :=
  fanvue_uuid ++ ":" ++ entropy

/-- _decode_state: decoded.split(":")[0], i.e. the prefix of the state
before its first colon (the whole string when no colon occurs); an empty
result (or an undecodable state, collapsed into it here) is falsy and makes
exchange_code raise ValueError, modelled as none. -/
def decode_state (state : String) : Option String :=
  let u := (state.toList.takeWhile (fun c => !(c == ':'))).asString
  if u = "" then none else some u

/-- _store_tokens: INSERT OR REPLACE INTO discord_tokens keyed on
fanvue_uuid, preserving the original created_at via the COALESCE subquery. -/
def store_tokens (db : List TokenRow) (uuid userId accessTok : String)
    (refreshTok : Option String) (expiry : Nat) (now : String) : List TokenRow :=
  let created :=
    match db.find? (fun r => r.fanvue_uuid == uuid) with
    | some r => r.created_at
    | none => now
  db.filter (fun r => !(r.fanvue_uuid == uuid)) ++
    [⟨uuid, userId, accessTok, refreshTok, expiry, created, now⟩]

/-- exchange_code: decode the state (raising ValueError on a falsy decode),
then exchange the authorization code (the HTTP POST is modelled by tokenResp;
none models a raise_for_status failure), fetch the user info (userResp), and
upsert the token row. No record of the state TOKEN itself is kept anywhere:
nothing marks a state as used. -/
def exchange_code (db : List TokenRow) (state : String)
    (tokenResp : Option TokenData) (userResp : Option String)
    (nowEpoch : Nat) (now : String) : Except String (List TokenRow × String) :=
  match decode_state state with
  | none => .error "Invalid state parameter"
  | some uuid =>
    match tokenResp with
    | none => .error "token endpoint error"
    | some td =>
      match userResp with
      | none => .error "user info endpoint error"
      | some userId =>
        .ok (store_tokens db uuid userId td.access_token td.refresh_token
          (nowEpoch + td.expires_in.getD 604800) now, uuid)

/-! ### SyncEngine (fanvue_common/sync.py) -/

/-- A subscriber/follower listing entry: its uuid and the isTopSpender flag. -/
structure PUser where
  uuid : String
  isTopSpender : Bool
deriving DecidableEq

/-- A fan-insights response, flattened to the only field the engine reads:
insights.get('spending', default).get('total', default).get('gross', 0); a
missing field anywhere along the path yields none (spend 0). -/
structure FanInsights where
  gross : Option Nat
deriving DecidableEq

/-- One membership rule object, by its type field; unknown covers any type
string that matches no branch of the dispatch chain. Optional fields model
dict.get calls. -/
inductive MRule where
  | subscription (active_subscription : Bool)
  | spending (min_lifetime_spend_cents : Option Nat)
  | top_spender
  | unlock (content_id : Option String)
  | fanvue_list (list_uuid : Option String) (list_type : Option String)
  | unknown
deriving DecidableEq

/-- The three accepted shapes of a room's rule configuration: a dict with a
rules key, a plain list, or a single rule dict. -/
inductive RulesConfig where
  | withRules (rules : List MRule)
  | ruleList (rules : List MRule)
  | single (rule : MRule)

/-- Normalization at the top of the room loop: all three shapes become a
rule list (a single rule is wrapped in a singleton). -/
def normalizeRules : RulesConfig → List MRule
  | .withRules rs => rs
  | .ruleList rs => rs
  | .single r => [r]

/-- The upstream snapshot seen through FanvueClient during one engine call:
pure functions standing for the HTTP endpoints. insights u = none models
get_fan_insights returning None on 404 as well as a raised request error
(both make _get_user_insights cache None); custom_list/smart_list = none
models a raised fetch error (caught, cached as the empty set). -/
structure Client where
  subscribers : List PUser
  followers : List PUser
  insights : String → Option FanInsights
  custom_list : String → Option (List String)
  smart_list : String → Option (List String)
  earnings : List Tx
  earningsErr : Option Nat

/-- The mutable state of a SyncEngine object: the two memo dicts created in
init (never cleared between compute_room_membership calls) and the backing
transaction store. -/
structure Engine where
  user_cache : List (String × Option FanInsights)
  list_cache : List (String × Finset String)
  store : StoreState

/-- A freshly constructed engine over an empty store. -/
def initEngine : Engine := ⟨[], [], initStore⟩

/-- Dict lookup in a memo list (newest entry first). -/
def lookupKey {α : Type} : List (String × α) → String → Option α
  | [], _ => none
  | p :: ps, k => if p.1 = k then some p.2 else lookupKey ps k

/-- Memoized get: return the cached value if the key is present, otherwise
store and return the supplied fetched value. -/
def cacheGet {α : Type} (c : List (String × α)) (k : String) (v : α) :
    List (String × α) × α :=
  match lookupKey c k with
  | some w => (c, w)
  | none => ((k, v) :: c, v)

/-- _get_user_insights: consult the user cache, fetching (and caching, even
on failure) on a miss. -/
def get_user_insights (cache : List (String × Option FanInsights)) (cl : Client)
    (u : String) : List (String × Option FanInsights) × Option FanInsights :=
  cacheGet cache u (cl.insights u)

/-- The spend extraction of _get_user_total_spend: a falsy insights value
gives 0, otherwise the gross field with default 0. -/
def spendOf : Option FanInsights → Nat
  | none => 0
  | some i => i.gross.getD 0

/-- _get_user_total_spend. -/
def get_user_total_spend (cache : List (String × Option FanInsights)) (cl : Client)
    (u : String) : List (String × Option FanInsights) × Nat :=
  let r := get_user_insights cache cl u
  (r.1, spendOf r.2)

/-- The cache key of _get_list_members: f-string list_type ":" list_uuid. -/
def list_key (lt lu : String) : String := lt ++ ":" ++ lu

/-- The list fetched by _get_list_members on a cache miss: the smart or
custom endpoint by list_type, with a fetch error cached as the empty set. -/
def fetch_list (cl : Client) (lu lt : String) : Finset String :=
  ((if lt = "smart" then cl.smart_list lu else cl.custom_list lu).getD []).toFinset

/-- _get_list_members (cached). -/
def get_list_members (cache : List (String × Finset String)) (cl : Client)
    (lu lt : String) : List (String × Finset String) × Finset String :=
  cacheGet cache (list_key lt lu) (fetch_list cl lu lt)

/-- The spending-rule scan: walk all_users in order, look up each user's
lifetime spend through the memo cache, and collect those meeting the floor. -/
def spendingScan (cl : Client) (minSpend : Nat) :
    List (String × Option FanInsights) → List PUser →
    List (String × Option FanInsights) × Finset String
  | cache, [] => (cache, ∅)
  | cache, u :: us =>
    let r := get_user_total_spend cache cl u.uuid
    let rest := spendingScan cl minSpend r.1 us
    (rest.1, if minSpend ≤ r.2 then insert u.uuid rest.2 else rest.2)

/-- One arm of the rule-dispatch chain of compute_room_membership, for the
single rule the chain actually sees (see roomStep). Returns the updated
engine and the uuids the rule adds to the room's set. -/
def eval_rule (e : Engine) (cl : Client) (subscribers all_users : List PUser) :
    MRule → Engine × Finset String
  | .subscription act =>
    (e, if act then (subscribers.map PUser.uuid).toFinset else ∅)
  | .spending m =>
    let r := spendingScan cl (m.getD 0) e.user_cache all_users
    ({ e with user_cache := r.1 }, r.2)
  | .top_spender =>
    (e, ((all_users.filter PUser.isTopSpender).map PUser.uuid).toFinset)
  | .unlock cid =>
    match cid with
    | none => (e, ∅)
    | some c => if c = "" then (e, ∅) else (e, get_unlockers e.store.purchases c)
  | .fanvue_list lu lt =>
    match lu with
    | none => (e, ∅)
    | some l =>
      if l = "" then (e, ∅)
      else
        let r := get_list_members e.list_cache cl l (lt.getD "custom")
        ({ e with list_cache := r.1 }, r.2)
  | .unknown => (e, ∅)

/-- The rule the dispatch chain sees after the inner "for rules in
rules_list" loop finishes: the LAST rule of the normalized list when it is
nonempty, otherwise the binding left over from the previous room. -/
def lastRuleOf (prev : Option MRule) (rc : RulesConfig) : Option MRule :=
  match (normalizeRules rc).getLast? with
  | some r => some r
  | none => prev

/-- One iteration of the room loop of compute_room_membership. The source
has an indentation slip: the inner loop "for rules in rules_list" contains
only the binding rule_type = rules.get('type'), and the whole dispatch chain
sits at the same indentation as that inner loop, so after the inner loop
finishes, only the LAST rule of the normalized list is dispatched. An empty
normalized list leaves the bindings from the previous room in place (carried
here in the accumulator; on the very first room the source would raise
NameError, modelled as dispatching no rule). -/
def roomStep (cl : Client) (subscribers all_users : List PUser)
    (acc : Engine × Option MRule × (String → Finset String))
    (rc : String × RulesConfig) : Engine × Option MRule × (String → Finset String) :=
  match lastRuleOf acc.2.1 rc.2 with
  | none => (acc.1, lastRuleOf acc.2.1 rc.2, acc.2.2)
  | some r =>
    ((eval_rule acc.1 cl subscribers all_users r).1, lastRuleOf acc.2.1 rc.2,
     fun a => if a = rc.1
       then acc.2.2 a ∪ (eval_rule acc.1 cl subscribers all_users r).2
       else acc.2.2 a)

/-- The combined user listing the engine iterates for spending and
top-spender rules: all subscribers, then the followers whose uuid is not
already among the subscriber uuids (subscriber record wins). -/
def all_users_of (cl : Client) : List PUser :=
  cl.subscribers ++ cl.followers.filter
    (fun f => decide (f.uuid ∉ (cl.subscribers.map PUser.uuid).toFinset))

/-- SyncEngine.compute_room_membership: sync the transaction store, fetch
subscribers and followers (dropping followers already present as
subscribers), then run the room loop. Returns the updated engine object and
the room-alias-to-uuid-set mapping (a defaultdict: untouched aliases map to
the empty set). -/
def compute_room_membership (e : Engine) (cl : Client)
    (rooms : List (String × RulesConfig)) : Engine × (String → Finset String) :=
  let e1 : Engine := { e with store := sync_earnings e.store cl.earnings cl.earningsErr }
  let res := rooms.foldl (roomStep cl cl.subscribers (all_users_of cl))
    (e1, none, fun _ => (∅ : Finset String))
  (res.1, res.2.2)

end FanvueSync

/-! ## Helper lemmas: cursor order -/

namespace FanvueSync

theorem empty_le_string (s : String) : "" ≤ s := by
  rw [String.le_iff_toList_le, String.toList_empty]
  exact List.nil_le

theorem cursorLE_refl (c : Option String) : cursorLE c c := by
  cases c with
  | none => trivial
  | some v => exact le_refl v

theorem cursorLE_trans {a b c : Option String} (h1 : cursorLE a b) (h2 : cursorLE b c) :
    cursorLE a c := by
  cases a with
  | none => trivial
  | some av =>
    cases b with
    | none => exact absurd h1 (fun h => h)
    | some bv =>
      cases c with
      | none => exact absurd h2 (fun h => h)
      | some cv => exact le_trans (show av ≤ bv from h1) (show bv ≤ cv from h2)

theorem cursorLT_of_le_of_ne {a b : Option String} (h1 : cursorLE a b) (h2 : a ≠ b) :
    cursorLT a b := by
  cases a with
  | none =>
    cases b with
    | none => exact absurd rfl h2
    | some bv => trivial
  | some av =>
    cases b with
    | none => exact absurd h1 (fun h => h)
    | some bv =>
      have hne : av ≠ bv := fun he => h2 (by rw [he])
      exact lt_of_le_of_ne (show av ≤ bv from h1) hne

theorem cursorStep_le (m : Option String) (d : String) : cursorLE m (cursorStep m d) := by
  cases m with
  | none => simp [cursorStep, cursorLE]
  | some mv =>
    simp only [cursorStep]
    by_cases h1 : mv = ""
    · simp [h1, cursorLE, empty_le_string]
    · simp only [h1, if_false]
      by_cases h2 : mv < d
      · simp [h2, cursorLE, le_of_lt h2]
      · simp [h2, cursorLE_refl]

theorem le_cursorStep (m : Option String) (d : String) :
    cursorLE (some d) (cursorStep m d) := by
  cases m with
  | none => simp [cursorStep, cursorLE]
  | some mv =>
    simp only [cursorStep]
    by_cases h1 : mv = ""
    · simp [h1, cursorLE]
    · simp only [h1, if_false]
      by_cases h2 : mv < d
      · simp [h2, cursorLE]
      · simp [h2, cursorLE, le_of_not_lt h2]

theorem cursorStep_cases (c : Option String) (d : String) :
    cursorStep c d = c ∨ cursorStep c d = some d := by
  cases c with
  | none => exact Or.inr rfl
  | some mv =>
    unfold cursorStep
    by_cases h1 : mv = ""
    · simp [h1]
    · by_cases h2 : mv < d
      · simp [h1, h2]
      · simp [h1, h2]

theorem syncMax_cons_none (c : Option String) {t : Tx} (ts : List Tx)
    (h : txDate t = none) : syncMax c (t :: ts) = syncMax c ts := by
  simp only [syncMax, List.foldl_cons, h]

theorem syncMax_cons_some (c : Option String) {t : Tx} (ts : List Tx) {d : String}
    (h : txDate t = some d) : syncMax c (t :: ts) = syncMax (cursorStep c d) ts := by
  simp only [syncMax, List.foldl_cons, h]

theorem passDates_nil : passDates [] = [] := rfl

theorem passDates_cons_none {t : Tx} (ts : List Tx) (h : txDate t = none) :
    passDates (t :: ts) = passDates ts := by
  simp only [passDates, List.filterMap_cons, h]

theorem passDates_cons_some {t : Tx} (ts : List Tx) {d : String} (h : txDate t = some d) :
    passDates (t :: ts) = d :: passDates ts := by
  simp only [passDates, List.filterMap_cons, h]

theorem syncMax_le (c : Option String) (ts : List Tx) : cursorLE c (syncMax c ts) := by
  induction ts generalizing c with
  | nil => exact cursorLE_refl c
  | cons t ts ih =>
    cases h : txDate t with
    | none =>
      rw [syncMax_cons_none c ts h]
      exact ih c
    | some d =>
      rw [syncMax_cons_some c ts h]
      exact cursorLE_trans (cursorStep_le c d) (ih (cursorStep c d))

theorem syncMax_eq_or_mem (c : Option String) (ts : List Tx) :
    syncMax c ts = c ∨ ∃ m, syncMax c ts = some m ∧ m ∈ passDates ts := by
  induction ts generalizing c with
  | nil => exact Or.inl rfl
  | cons t ts ih =>
    cases h : txDate t with
    | none =>
      rw [syncMax_cons_none c ts h, passDates_cons_none ts h]
      exact ih c
    | some d =>
      rw [syncMax_cons_some c ts h, passDates_cons_some ts h]
      rcases cursorStep_cases c d with hs | hs
      · rw [hs]
        rcases ih c with h1 | ⟨m, h1, h2⟩
        · exact Or.inl h1
        · exact Or.inr ⟨m, h1, List.mem_cons_of_mem d h2⟩
      · rcases ih (cursorStep c d) with h1 | ⟨m, h1, h2⟩
        · exact Or.inr ⟨d, by rw [h1, hs], List.mem_cons_self d _⟩
        · exact Or.inr ⟨m, h1, List.mem_cons_of_mem d h2⟩

theorem syncMax_upper (c : Option String) (ts : List Tx) :
    ∀ d ∈ passDates ts, cursorLE (some d) (syncMax c ts) := by
  induction ts generalizing c with
  | nil => intro d hd; rw [passDates_nil] at hd; cases hd
  | cons t ts ih =>
    intro d hd
    cases h : txDate t with
    | none =>
      rw [passDates_cons_none ts h] at hd
      rw [syncMax_cons_none c ts h]
      exact ih c d hd
    | some d0 =>
      rw [passDates_cons_some ts h] at hd
      rw [syncMax_cons_some c ts h]
      rcases List.mem_cons.mp hd with rfl | hd1
      · exact cursorLE_trans (le_cursorStep c d) (syncMax_le (cursorStep c d) ts)
      · exact ih (cursorStep c d0) d hd1

theorem insertTx_cursor (st : StoreState) (t : Tx) : (insertTx st t).cursor = st.cursor := by
  unfold insertTx
  cases extractTriple t <;> rfl

theorem foldl_insertTx_cursor (st : StoreState) (ts : List Tx) :
    (ts.foldl insertTx st).cursor = st.cursor := by
  induction ts generalizing st with
  | nil => rfl
  | cons t ts ih => simp only [List.foldl_cons]; rw [ih, insertTx_cursor]

end FanvueSync

/-! ## Helper lemmas: purchase rows -/

namespace FanvueSync

theorem hasPurchase_iff_count_pos (ps : List (String × String × Option String))
    (p u : String) : hasPurchase ps p u = true ↔ 0 < countPurchase ps p u := by
  unfold hasPurchase countPurchase
  rw [List.any_eq_true, List.countP_pos_iff]

theorem hasPurchase_append (ps qs : List (String × String × Option String))
    (p u : String) :
    hasPurchase (ps ++ qs) p u = (hasPurchase ps p u || hasPurchase qs p u) := by
  unfold hasPurchase
  rw [List.any_append]

theorem hasPurchase_add_purchase_self (ps : List (String × String × Option String))
    (p u : String) (d : Option String) :
    hasPurchase (add_purchase ps p u d) p u = true := by
  unfold add_purchase
  by_cases h : hasPurchase ps p u = true
  · simp [h]
  · rw [if_neg h, hasPurchase_append]
    have h1 : hasPurchase [(p, u, d)] p u = true := by simp [hasPurchase]
    simp [h1]

theorem hasPurchase_mono (ps : List (String × String × Option String))
    (p u : String) (d : Option String) {a b : String}
    (h : hasPurchase ps a b = true) :
    hasPurchase (add_purchase ps p u d) a b = true := by
  unfold add_purchase
  by_cases hp : hasPurchase ps p u = true
  · simp [hp, h]
  · rw [if_neg hp, hasPurchase_append]
    simp [h]

theorem hasPurchase_insertTx_mono (st : StoreState) (t : Tx) {a b : String}
    (h : hasPurchase st.purchases a b = true) :
    hasPurchase (insertTx st t).purchases a b = true := by
  unfold insertTx
  cases extractTriple t with
  | none => exact h
  | some r => exact hasPurchase_mono st.purchases r.1 r.2.1 r.2.2 h

theorem foldl_insertTx_mono (st : StoreState) (ts : List Tx) {a b : String}
    (h : hasPurchase st.purchases a b = true) :
    hasPurchase (ts.foldl insertTx st).purchases a b = true := by
  induction ts generalizing st with
  | nil => exact h
  | cons t ts ih =>
    simp only [List.foldl_cons]
    exact ih (insertTx st t) (hasPurchase_insertTx_mono st t h)

theorem foldl_insertTx_hasPurchase (st : StoreState) (ts : List Tx) :
    ∀ t ∈ ts, ∀ x, extractTriple t = some x →
      hasPurchase ((ts.foldl insertTx st)).purchases x.1 x.2.1 = true := by
  induction ts generalizing st with
  | nil => intro t ht; cases ht
  | cons t0 ts ih =>
    intro t ht x hx
    simp only [List.foldl_cons]
    rcases List.mem_cons.mp ht with rfl | ht1
    · have h0 : hasPurchase (insertTx st t).purchases x.1 x.2.1 = true := by
        unfold insertTx
        rw [hx]
        exact hasPurchase_add_purchase_self st.purchases x.1 x.2.1 x.2.2
      exact foldl_insertTx_mono (insertTx st t) ts h0
    · exact ih (insertTx st t0) t ht1 x hx

/-! ## Helper lemmas: sync_earnings cursor -/

theorem sync_earnings_some_eq (st : StoreState) (events : List Tx) (k : Nat) :
    sync_earnings st events (some k) = (events.take k).foldl insertTx st := rfl

theorem sync_earnings_some_cursor (st : StoreState) (events : List Tx) (k : Nat) :
    (sync_earnings st events (some k)).cursor = st.cursor := by
  rw [sync_earnings_some_eq]
  exact foldl_insertTx_cursor st (events.take k)

theorem sync_earnings_none_cursor (st : StoreState) (events : List Tx) :
    (sync_earnings st events none).cursor = newCursor st.cursor events := by
  show (match syncMax st.cursor events with
    | none => events.foldl insertTx st
    | some m =>
      if m = "" then events.foldl insertTx st
      else if st.cursor = some m then events.foldl insertTx st
      else { events.foldl insertTx st with cursor := some m }).cursor
    = (match syncMax st.cursor events with
    | none => st.cursor
    | some m => if m = "" then st.cursor else if st.cursor = some m then st.cursor else some m)
  cases syncMax st.cursor events with
  | none => exact foldl_insertTx_cursor st events
  | some m =>
    show (if m = "" then events.foldl insertTx st
      else if st.cursor = some m then events.foldl insertTx st
      else { events.foldl insertTx st with cursor := some m }).cursor
      = (if m = "" then st.cursor else if st.cursor = some m then st.cursor else some m)
    by_cases h1 : m = ""
    · rw [if_pos h1, if_pos h1]
      exact foldl_insertTx_cursor st events
    · rw [if_neg h1, if_neg h1]
      by_cases h2 : st.cursor = some m
      · rw [if_pos h2, if_pos h2]
        exact foldl_insertTx_cursor st events
      · rw [if_neg h2, if_neg h2]

theorem newCursor_le (c : Option String) (events : List Tx) :
    cursorLE c (newCursor c events) := by
  have hle := syncMax_le c events
  unfold newCursor
  cases hsm : syncMax c events with
  | none => exact cursorLE_refl c
  | some m =>
    show cursorLE c (if m = "" then c else if c = some m then c else some m)
    by_cases h1 : m = ""
    · rw [if_pos h1]
      exact cursorLE_refl c
    · rw [if_neg h1]
      by_cases h2 : c = some m
      · rw [if_pos h2]
        exact cursorLE_refl c
      · rw [if_neg h2]
        rw [hsm] at hle
        exact hle

theorem newCursor_nil (c : Option String) : newCursor c [] = c := by
  unfold newCursor
  have h : syncMax c [] = c := rfl
  rw [h]
  cases c with
  | none => rfl
  | some mv =>
    show (if mv = "" then some mv else if some mv = some mv then some mv else some mv)
      = some mv
    by_cases h1 : mv = ""
    · rw [if_pos h1]
    · rw [if_neg h1, if_pos rfl]

theorem newCursor_eq_of_syncMax_none {c : Option String} {events : List Tx}
    (h : syncMax c events = none) : newCursor c events = c := by
  unfold newCursor
  rw [h]

theorem newCursor_eq_of_syncMax_some {c : Option String} {events : List Tx}
    {m : String} (h : syncMax c events = some m) :
    newCursor c events = if m = "" then c else if c = some m then c else some m := by
  unfold newCursor
  rw [h]

theorem sync_earnings_cursor_le (st : StoreState) (events : List Tx)
    (errAt : Option Nat) :
    cursorLE st.cursor (sync_earnings st events errAt).cursor := by
  cases errAt with
  | some k =>
    rw [sync_earnings_some_cursor]
    exact cursorLE_refl _
  | none =>
    rw [sync_earnings_none_cursor]
    exact newCursor_le st.cursor events

end FanvueSync

/-! ## Claim theorems: transaction ledger (C8, C3, C7) -/

namespace FanvueSync

/-- C8: inserting the same (postId, buyerUuid) transaction twice leaves the
ledger with exactly one row for that pair; the duplicate insert is a silent
no-op (INSERT OR IGNORE), so add_purchase is idempotent for every pair, from
any table state respecting the primary-key uniqueness invariant. -/
theorem add_purchase_idempotent (ps : List (String × String × Option String))
    (p u : String) (d d2 : Option String) (h : countPurchase ps p u ≤ 1) :
    add_purchase (add_purchase ps p u d) p u d2 = add_purchase ps p u d ∧
    countPurchase (add_purchase (add_purchase ps p u d) p u d2) p u = 1 := by
  have hself := hasPurchase_add_purchase_self ps p u d
  have e2 : add_purchase (add_purchase ps p u d) p u d2 = add_purchase ps p u d := by
    show (if hasPurchase (add_purchase ps p u d) p u then add_purchase ps p u d
      else add_purchase ps p u d ++ [(p, u, d2)]) = add_purchase ps p u d
    rw [hself]
    simp
  refine ⟨e2, ?_⟩
  rw [e2]
  by_cases hp : hasPurchase ps p u = true
  · have e1 : add_purchase ps p u d = ps := by
      unfold add_purchase
      rw [if_pos hp]
    rw [e1]
    have h1 : 0 < countPurchase ps p u := (hasPurchase_iff_count_pos ps p u).mp hp
    omega
  · have e1 : add_purchase ps p u d = ps ++ [(p, u, d)] := by
      unfold add_purchase
      rw [if_neg hp]
    rw [e1]
    unfold countPurchase
    rw [List.countP_append]
    have h0 : List.countP (fun r => r.1 == p && r.2.1 == u) ps = 0 := by
      by_contra hne
      exact hp ((hasPurchase_iff_count_pos ps p u).mpr (Nat.pos_of_ne_zero hne))
    rw [h0]
    simp

/-- Witness for C8 at a concrete table. -/
theorem add_purchase_idempotent_witness :
    add_purchase (add_purchase [] "post1" "buyer1" (some "2024-01-01"))
        "post1" "buyer1" (some "2024-01-02")
      = add_purchase [] "post1" "buyer1" (some "2024-01-01") ∧
    countPurchase (add_purchase (add_purchase [] "post1" "buyer1" (some "2024-01-01"))
        "post1" "buyer1" (some "2024-01-02")) "post1" "buyer1" = 1 :=
  add_purchase_idempotent [] "post1" "buyer1" (some "2024-01-01") (some "2024-01-02")
    (by decide)

/-- C3: across any sequence of sync passes the stored cursor is
non-decreasing; a pass observing zero events leaves it unchanged; and the
cursor moves only when the pass completed without an exception, to the
maximum date observed in the pass, and only when that maximum strictly
exceeds the old cursor. -/
theorem sync_cursor_monotonicity (st : StoreState) (events : List Tx)
    (errAt : Option Nat) (passes : List (List Tx × Option Nat)) :
    cursorLE st.cursor (sync_earnings st events errAt).cursor ∧
    (events = [] → (sync_earnings st events errAt).cursor = st.cursor) ∧
    cursorLE st.cursor
      ((passes.foldl (fun s q => sync_earnings s q.1 q.2) st)).cursor ∧
    ((sync_earnings st events errAt).cursor ≠ st.cursor →
      errAt = none ∧
      ∃ m, (sync_earnings st events errAt).cursor = some m ∧
        m ∈ passDates events ∧ (∀ d ∈ passDates events, d ≤ m) ∧
        cursorLT st.cursor (some m)) := by
  refine ⟨sync_earnings_cursor_le st events errAt, ?_, ?_, ?_⟩
  · intro he
    subst he
    cases errAt with
    | some k => exact sync_earnings_some_cursor st [] k
    | none =>
      rw [sync_earnings_none_cursor]
      exact newCursor_nil st.cursor
  · induction passes generalizing st with
    | nil => exact cursorLE_refl st.cursor
    | cons q qs ih =>
      simp only [List.foldl_cons]
      exact cursorLE_trans (sync_earnings_cursor_le st q.1 q.2)
        (ih (sync_earnings st q.1 q.2))
  · intro hne
    cases errAt with
    | some k => exact absurd (sync_earnings_some_cursor st events k) hne
    | none =>
      refine ⟨rfl, ?_⟩
      rw [sync_earnings_none_cursor] at hne ⊢
      cases hsm : syncMax st.cursor events with
      | none =>
        rw [newCursor_eq_of_syncMax_none hsm] at hne
        exact absurd rfl hne
      | some m =>
        have hc := newCursor_eq_of_syncMax_some hsm
        by_cases h1 : m = ""
        · rw [hc, if_pos h1] at hne
          exact absurd rfl hne
        · by_cases h2 : st.cursor = some m
          · rw [hc, if_neg h1, if_pos h2] at hne
            exact absurd rfl hne
          · refine ⟨m, ?_, ?_, ?_, ?_⟩
            · rw [hc, if_neg h1, if_neg h2]
            · rcases syncMax_eq_or_mem st.cursor events with he | ⟨m2, he, hm2⟩
              · rw [hsm] at he
                exact absurd he.symm h2
              · rw [hsm] at he
                cases he
                exact hm2
            · intro d hd
              have hub := syncMax_upper st.cursor events d hd
              rw [hsm] at hub
              exact hub
            · have hle := syncMax_le st.cursor events
              rw [hsm] at hle
              exact cursorLT_of_le_of_ne hle h2

/-- Witness for C3 at a concrete pass. -/
theorem sync_cursor_monotonicity_witness :
    cursorLE (initStore).cursor
      (sync_earnings initStore [⟨some "p1", some "u1", some "2024-05-01"⟩] none).cursor :=
  (sync_cursor_monotonicity initStore [⟨some "p1", some "u1", some "2024-05-01"⟩]
    none []).1

/-- C7: when the upstream earnings stream raises partway through a pass
(after k yielded events), the stored cursor is exactly the cursor from
before the pass, while the purchases table is exactly the table produced by
the inserts committed before the error, and every event extracted before the
error remains present. -/
theorem sync_error_preserves_cursor (st : StoreState) (events : List Tx) (k : Nat) :
    (sync_earnings st events (some k)).cursor = st.cursor ∧
    (sync_earnings st events (some k)).purchases
      = ((events.take k).foldl insertTx st).purchases ∧
    ∀ t ∈ events.take k, ∀ x, extractTriple t = some x →
      hasPurchase (sync_earnings st events (some k)).purchases x.1 x.2.1 = true := by
  refine ⟨sync_earnings_some_cursor st events k, rfl, ?_⟩
  rw [sync_earnings_some_eq]
  exact foldl_insertTx_hasPurchase st (events.take k)

/-- Witness for C7: a stream that errors after its first event keeps the old
cursor while the first purchase is retained. -/
theorem sync_error_preserves_cursor_witness :
    (sync_earnings ⟨[], some "2024-01-01"⟩
      [⟨some "p1", some "u1", some "2024-06-01"⟩,
       ⟨some "p2", some "u2", some "2024-07-01"⟩] (some 1)).cursor
      = some "2024-01-01" ∧
    hasPurchase (sync_earnings ⟨[], some "2024-01-01"⟩
      [⟨some "p1", some "u1", some "2024-06-01"⟩,
       ⟨some "p2", some "u2", some "2024-07-01"⟩] (some 1)).purchases "p1" "u1" = true := by
  refine ⟨(sync_error_preserves_cursor ⟨[], some "2024-01-01"⟩
    [⟨some "p1", some "u1", some "2024-06-01"⟩,
     ⟨some "p2", some "u2", some "2024-07-01"⟩] 1).1, ?_⟩
  exact (sync_error_preserves_cursor ⟨[], some "2024-01-01"⟩
    [⟨some "p1", some "u1", some "2024-06-01"⟩,
     ⟨some "p2", some "u2", some "2024-07-01"⟩] 1).2.2
    ⟨some "p1", some "u1", some "2024-06-01"⟩ (by decide)
    ("p1", "u1", some "2024-06-01") (by decide)

/-! ## Claim theorem: sent_offers keying (C2) -/

/-- C2: the sent_offers schema declares user_id alone as the primary key, so
after recording an offer for (u, t1), recording one for the distinct trigger
(u, t2) hits an IntegrityError that is swallowed: (u, t2) is never recorded
(has_received_offer answers false), the table keeps a single row, and only
re-recording the identical pair is the intended silent no-op. This
contradicts the claimed (userId, triggerId) pair keying. -/
theorem sent_offers_pk_collision :
    has_received_offer (record_offer (record_offer [] "u" "t1" "s1") "u" "t2" "s2")
      "u" "t1" = true ∧
    has_received_offer (record_offer (record_offer [] "u" "t1" "s1") "u" "t2" "s2")
      "u" "t2" = false ∧
    (record_offer (record_offer [] "u" "t1" "s1") "u" "t2" "s2").length = 1 ∧
    record_offer (record_offer [] "u" "t1" "s1") "u" "t1" "s3"
      = record_offer [] "u" "t1" "s1" := by decide

end FanvueSync

/-! ## Claim theorems: reconciliation diff (C6, C4) -/

namespace FanvueSync

/-- C6: the reconciliation diff is the pair of plain set differences - on the
spec's example, entitled {X,Y,Z} against actual {Y,Z,W} gives toAdd = {X} and
toRemove = {W} - and after a pass in which every grant and revoke succeeded,
with no external changes, an immediate second pass computes no operations at
all: this holds in the matrix room model (provided the bot's own id is not
among the allowed targets, since enforce_room always discards it from the
current members) and in the discord role model, for every expiry action. -/
theorem reconcile_diff_and_convergence :
    enforce_room_diff {"Y", "Z", "W"} {"X", "Y", "Z"} "BOT" "kick"
      = ({"X"}, {"W"}) ∧
    (∀ (current allowed : Finset String) (bot action : String), bot ∉ allowed →
      enforce_room_diff (apply_room current (enforce_room_diff current allowed bot action))
        allowed bot action = (∅, ∅)) ∧
    (∀ (target current : Finset Nat) (action : String),
      (discord_role_diff target
        (apply_role current action (discord_role_diff target current))).1 = ∅ ∧
      discord_effective_remove action
        (discord_role_diff target
          (apply_role current action (discord_role_diff target current))).2 = ∅) := by
  refine ⟨by decide, ?_, ?_⟩
  · intro current allowed bot action hbot
    unfold enforce_room_diff apply_room
    by_cases hig : action = "ignore"
    · simp only [if_pos hig, Prod.mk.injEq]
      refine ⟨?_, trivial⟩
      ext x
      have hxb : x ∈ allowed → ¬x = bot := fun ha he => hbot (he ▸ ha)
      simp only [Finset.sdiff_empty, Finset.mem_sdiff, Finset.mem_erase,
        Finset.mem_union, Finset.not_mem_empty, iff_false, not_and, not_not]
      tauto
    · simp only [if_neg hig, Prod.mk.injEq]
      constructor
      · ext x
        have hxb : x ∈ allowed → ¬x = bot := fun ha he => hbot (he ▸ ha)
        simp only [Finset.mem_sdiff, Finset.mem_erase, Finset.mem_union,
          Finset.not_mem_empty, iff_false, not_and, not_not]
        tauto
      · ext x
        have hxb : x ∈ allowed → ¬x = bot := fun ha he => hbot (he ▸ ha)
        simp only [Finset.mem_sdiff, Finset.mem_erase, Finset.mem_union,
          Finset.not_mem_empty, iff_false, not_and, not_not]
        tauto
  · intro target current action
    unfold discord_role_diff apply_role discord_effective_remove
    by_cases hig : action = "ignore"
    · simp only [if_pos hig]
      constructor
      · ext x
        simp only [Finset.sdiff_empty, Finset.mem_sdiff, Finset.mem_union,
          Finset.not_mem_empty, iff_false, not_and, not_not]
        tauto
      · trivial
    · simp only [if_neg hig]
      constructor
      · ext x
        simp only [Finset.mem_sdiff, Finset.mem_union,
          Finset.not_mem_empty, iff_false, not_and, not_not]
        tauto
      · ext x
        simp only [Finset.mem_sdiff, Finset.mem_union,
          Finset.not_mem_empty, iff_false, not_and, not_not]
        tauto

/-- Witness for C6 at concrete rosters. -/
theorem reconcile_diff_and_convergence_witness :
    enforce_room_diff
      (apply_room {"A", "W"} (enforce_room_diff {"A", "W"} {"A", "X"} "BOT" "kick"))
      {"A", "X"} "BOT" "kick" = (∅, ∅) :=
  reconcile_diff_and_convergence.2.1 {"A", "W"} {"A", "X"} "BOT" "kick" (by decide)

/-- C4 counterexample: in the discord role reconciliation the service
account is NOT excluded before diffing: with the bot id 99 holding the role
and no entitled targets, 99 lands in the remove set, so a pass would
role-revoke (or, under the kick policy, kick) the service's own account. -/
theorem discord_diff_removes_service_account :
    (discord_role_diff ∅ {99}).2 = {99} ∧
    discord_effective_remove "kick" (discord_role_diff ∅ {99}).2 = {99} := by decide

/-- C4 amended: only the matrix bot excludes its own account: enforce_room
discards the bot's user id from the current members before diffing, so the
bot never appears in its kick set, for every roster and policy; the discord
sync_fanvue_roles performs no such exclusion, and any role holder outside
the target set - the service account included - appears in its remove set. -/
theorem service_account_exclusion_matrix_only :
    (∀ (current allowed : Finset String) (bot action : String),
      bot ∉ (enforce_room_diff current allowed bot action).2) ∧
    (∀ (target current : Finset Nat) (b : Nat), b ∈ current → b ∉ target →
      b ∈ (discord_role_diff target current).2) := by
  constructor
  · intro current allowed bot action
    unfold enforce_room_diff
    by_cases hig : action = "ignore"
    · simp [if_pos hig]
    · simp only [if_neg hig, Finset.mem_sdiff, Finset.mem_erase]
      intro h
      exact absurd rfl h.1.1
  · intro target current b hc ht
    unfold discord_role_diff
    exact Finset.mem_sdiff.mpr ⟨hc, ht⟩

/-- Witness for the amended C4. -/
theorem service_account_exclusion_witness :
    "BOT" ∉ (enforce_room_diff {"BOT", "A"} {"B"} "BOT" "kick").2 ∧
    (7 : Nat) ∈ (discord_role_diff ∅ {7}).2 :=
  ⟨service_account_exclusion_matrix_only.1 {"BOT", "A"} {"B"} "BOT" "kick",
   service_account_exclusion_matrix_only.2 ∅ {7} 7 (by decide) (by decide)⟩

end FanvueSync

/-! ## Claim theorems: OAuth state handling (C5) -/

namespace FanvueSync

/-- C5 counterexample: presenting the same state a second time is NOT
rejected: both exchanges complete and upsert a link, because no record of a
consumed state exists anywhere in the store. -/
theorem oauth_state_replay_not_rejected :
    exchange_code [] (generate_state "u1" "e1")
        (some ⟨"at", some "rt", some 100⟩) (some "d1") 0 "t1"
      = Except.ok (store_tokens [] "u1" "d1" "at" (some "rt") 100 "t1", "u1") ∧
    exchange_code (store_tokens [] "u1" "d1" "at" (some "rt") 100 "t1")
        (generate_state "u1" "e1")
        (some ⟨"at", some "rt", some 100⟩) (some "d1") 5 "t2"
      = Except.ok (store_tokens (store_tokens [] "u1" "d1" "at" (some "rt") 100 "t1")
          "u1" "d1" "at" (some "rt") 105 "t2", "u1") := by
  constructor
  · rfl
  · rfl

/-- C5 amended: exchange_code rejects a malformed state explicitly (a falsy
decode raises ValueError), but states are never tracked or consumed: any
decodable state can be replayed, and the replay completes another link
rather than being rejected. -/
theorem oauth_malformed_rejected_replay_accepted :
    (∀ (db : List TokenRow) (s : String) (tokenResp : Option TokenData)
        (userResp : Option String) (n : Nat) (now : String),
      decode_state s = none →
      exchange_code db s tokenResp userResp n now
        = Except.error "Invalid state parameter") ∧
    (∀ (db : List TokenRow) (s uuid : String) (td : TokenData) (userId : String)
        (n : Nat) (now : String),
      decode_state s = some uuid →
      ∃ db1, exchange_code db s (some td) (some userId) n now = Except.ok (db1, uuid) ∧
        ∃ db2, exchange_code db1 s (some td) (some userId) n now
          = Except.ok (db2, uuid)) := by
  constructor
  · intro db s tokenResp userResp n now h
    unfold exchange_code
    rw [h]
  · intro db s uuid td userId n now h
    unfold exchange_code
    rw [h]
    exact ⟨_, rfl, _, rfl⟩

/-- Witness for the amended C5. -/
theorem oauth_malformed_rejected_replay_accepted_witness :
    exchange_code [] "" none none 0 "t" = Except.error "Invalid state parameter" ∧
    (∃ db1, exchange_code [] "a:b" (some ⟨"tok", none, none⟩) (some "d") 0 "t"
        = Except.ok (db1, "a") ∧
      ∃ db2, exchange_code db1 "a:b" (some ⟨"tok", none, none⟩) (some "d") 0 "t"
        = Except.ok (db2, "a")) :=
  ⟨oauth_malformed_rejected_replay_accepted.1 [] "" none none 0 "t" rfl,
   oauth_malformed_rejected_replay_accepted.2 [] "a:b" "a" ⟨"tok", none, none⟩
     "d" 0 "t" rfl⟩

end FanvueSync

/-! ## Helper lemmas: rule-engine caches and spending scan -/

namespace FanvueSync

theorem spendingScan_zero (cl : Client) (cache : List (String × Option FanInsights))
    (users : List PUser) :
    (spendingScan cl 0 cache users).2 = (users.map PUser.uuid).toFinset := by
  induction users generalizing cache with
  | nil => rfl
  | cons u us ih =>
    unfold spendingScan
    simp only [List.map_cons, List.toFinset_cons]
    rw [if_pos (Nat.zero_le _), ih]

theorem all_users_uuid_union (subs fols : List PUser) :
    ((subs ++ fols.filter
        (fun f => decide (f.uuid ∉ (subs.map PUser.uuid).toFinset))).map
      PUser.uuid).toFinset
    = (subs.map PUser.uuid).toFinset ∪ (fols.map PUser.uuid).toFinset := by
  ext x
  simp only [List.mem_toFinset, List.mem_map, List.mem_append, List.mem_filter,
    Finset.mem_union, decide_eq_true_eq]
  constructor
  · rintro ⟨a, ha, rfl⟩
    rcases ha with ha | ⟨hf, _⟩
    · exact Or.inl ⟨a, ha, rfl⟩
    · exact Or.inr ⟨a, hf, rfl⟩
  · rintro (⟨a, ha, rfl⟩ | ⟨a, ha, rfl⟩)
    · exact ⟨a, Or.inl ha, rfl⟩
    · by_cases hs : ∃ b ∈ subs, b.uuid = a.uuid
      · rcases hs with ⟨b, hb, hbe⟩
        exact ⟨b, Or.inl hb, hbe⟩
      · exact ⟨a, Or.inr ⟨ha, hs⟩, rfl⟩

end FanvueSync

/-! ## Claim theorems: rule evaluation (C1, C10) -/

namespace FanvueSync

/-- C1: the indentation slip in compute_room_membership (the dispatch chain
sits outside the inner rule loop) makes the engine evaluate only the LAST
rule of each destination. On the spec's own example - subscribers {A,B},
followers {B,C} with C flagged top-spender, rules
[Subscription(active=true), TopSpender] - the destination's result is {C}
(the last rule alone), not the claimed union {A,B,C}. -/
theorem compute_membership_last_rule_only :
    ((compute_room_membership initEngine
        ⟨[⟨"A", false⟩, ⟨"B", false⟩], [⟨"B", false⟩, ⟨"C", true⟩],
         fun _ => none, fun _ => none, fun _ => none, [], none⟩
        [("room1", RulesConfig.ruleList
          [MRule.subscription true, MRule.top_spender])]).2 "room1"
      = {"C"}) ∧
    ((compute_room_membership initEngine
        ⟨[⟨"A", false⟩, ⟨"B", false⟩], [⟨"B", false⟩, ⟨"C", true⟩],
         fun _ => none, fun _ => none, fun _ => none, [], none⟩
        [("room1", RulesConfig.ruleList
          [MRule.subscription true, MRule.top_spender])]).2 "room1"
      ≠ ({"A", "B", "C"} : Finset String)) := by
  constructor
  · decide
  · decide

/-- C10: a user whose insights fetch fails or 404s is treated as having
lifetime gross spend 0 and the failure value None is cached, so the rest of
the run (even against a changed upstream) reuses it without refetching; and
a spending rule with no min_lifetime_spend_cents field defaults the floor to
0, so its scan matches every user in the subscribers-plus-followers list,
whose uuid set is exactly the union of the subscriber and follower uuids. -/
theorem spending_rule_failure_and_default
    (cache : List (String × Option FanInsights)) (cl : Client) (u : String)
    (hmiss : lookupKey cache u = none) (hfail : cl.insights u = none) :
    get_user_total_spend cache cl u = ((u, none) :: cache, 0) ∧
    (∀ cl2 : Client, get_user_insights ((u, none) :: cache) cl2 u
      = ((u, none) :: cache, none)) ∧
    (∀ (e : Engine) (subs users : List PUser),
      (eval_rule e cl subs users (MRule.spending none)).2
        = (users.map PUser.uuid).toFinset) ∧
    (∀ (subs fols : List PUser),
      ((subs ++ fols.filter
          (fun f => decide (f.uuid ∉ (subs.map PUser.uuid).toFinset))).map
        PUser.uuid).toFinset
      = (subs.map PUser.uuid).toFinset ∪ (fols.map PUser.uuid).toFinset) := by
  refine ⟨?_, ?_, ?_, all_users_uuid_union⟩
  · unfold get_user_total_spend get_user_insights cacheGet
    rw [hmiss, hfail]
    rfl
  · intro cl2
    have hl : lookupKey ((u, none) :: cache) u = some none := by
      show (if u = u then some (none : Option FanInsights) else lookupKey cache u)
        = some none
      rw [if_pos rfl]
    unfold get_user_insights cacheGet
    rw [hl]
  · intro e subs users
    show (spendingScan cl ((none : Option Nat).getD 0) e.user_cache users).2
      = (users.map PUser.uuid).toFinset
    exact spendingScan_zero cl e.user_cache users

/-- Witness for C10 at a concrete failing client. -/
theorem spending_rule_failure_and_default_witness :
    get_user_total_spend []
      ⟨[], [], fun _ => none, fun _ => none, fun _ => none, [], none⟩ "u1"
      = (("u1", none) :: [], 0) ∧
    (∀ cl2 : Client, get_user_insights (("u1", none) :: []) cl2 "u1"
      = (("u1", none) :: [], none)) ∧
    (∀ (e : Engine) (subs users : List PUser),
      (eval_rule e ⟨[], [], fun _ => none, fun _ => none, fun _ => none, [], none⟩
        subs users (MRule.spending none)).2
        = (users.map PUser.uuid).toFinset) ∧
    (∀ (subs fols : List PUser),
      ((subs ++ fols.filter
          (fun f => decide (f.uuid ∉ (subs.map PUser.uuid).toFinset))).map
        PUser.uuid).toFinset
      = (subs.map PUser.uuid).toFinset ∪ (fols.map PUser.uuid).toFinset) :=
  spending_rule_failure_and_default []
    ⟨[], [], fun _ => none, fun _ => none, fun _ => none, [], none⟩ "u1" rfl rfl

end FanvueSync

/-! ## Claim theorems: per-run cache scoping (C9) -/

namespace FanvueSync

/-- C9 counterexample: the memo caches live on the engine object and are
never cleared between runs, so a second compute_room_membership call on the
same engine observes the first run's cached insight (spend 100) even though
the upstream now reports spend 0: the same-engine rerun yields {u} while a
fresh engine against the same new upstream yields the empty set. -/
theorem compute_membership_cache_leaks_across_runs :
    ((compute_room_membership
        (compute_room_membership initEngine
          ⟨[⟨"u", false⟩], [], fun _ => some ⟨some 100⟩,
           fun _ => none, fun _ => none, [], none⟩
          [("r", RulesConfig.single (MRule.spending (some 50)))]).1
        ⟨[⟨"u", false⟩], [], fun _ => some ⟨some 0⟩,
         fun _ => none, fun _ => none, [], none⟩
        [("r", RulesConfig.single (MRule.spending (some 50)))]).2 "r"
      = {"u"}) ∧
    ((compute_room_membership initEngine
        ⟨[⟨"u", false⟩], [], fun _ => some ⟨some 0⟩,
         fun _ => none, fun _ => none, [], none⟩
        [("r", RulesConfig.single (MRule.spending (some 50)))]).2 "r"
      = (∅ : Finset String)) := by
  constructor
  · decide
  · decide

/-! Replay machinery for the amended C9: a run whose caches already contain
every entry it will look up (as after a previous run against the same
client) reads exactly the values the fresh run would have computed, because
entries are only ever consed onto the cache (so every intermediate cache is
a suffix of the final one) and keys are never duplicated. -/

theorem lookupKey_none_not_mem {α : Type} (c : List (String × α)) (k : String)
    (h : lookupKey c k = none) : k ∉ c.map Prod.fst := by
  induction c with
  | nil => simp
  | cons p ps ih =>
    unfold lookupKey at h
    by_cases hp : p.1 = k
    · rw [if_pos hp] at h
      cases h
    · rw [if_neg hp] at h
      rw [List.map_cons]
      intro hmem
      rcases List.mem_cons.mp hmem with he | he
      · exact hp he.symm
      · exact (ih h) he

theorem lookupKey_mem {α : Type} {c : List (String × α)} {k : String} {v : α}
    (h : lookupKey c k = some v) : (k, v) ∈ c := by
  induction c with
  | nil => cases h
  | cons p ps ih =>
    unfold lookupKey at h
    by_cases hp : p.1 = k
    · rw [if_pos hp] at h
      cases h
      exact List.mem_cons.mpr (Or.inl (by rw [← hp]))
    · rw [if_neg hp] at h
      exact List.mem_cons.mpr (Or.inr (ih h))

theorem mem_lookupKey {α : Type} {c : List (String × α)} {k : String} {v : α}
    (hnd : (c.map Prod.fst).Nodup) (h : (k, v) ∈ c) : lookupKey c k = some v := by
  induction c with
  | nil => cases h
  | cons p ps ih =>
    have hnd' := hnd
    rw [List.map_cons] at hnd'
    have h1 := (List.nodup_cons.mp hnd').1
    have h2 := (List.nodup_cons.mp hnd').2
    rcases List.mem_cons.mp h with he | hm
    · unfold lookupKey
      rw [← he]
      rw [if_pos rfl]
    · unfold lookupKey
      have hp : p.1 ≠ k := fun hpk =>
        h1 (by rw [hpk]; exact List.mem_map.mpr ⟨(k, v), hm, rfl⟩)
      rw [if_neg hp]
      exact ih h2 hm

theorem cacheGet_suffix {α : Type} (c : List (String × α)) (k : String) (v : α) :
    c <:+ (cacheGet c k v).1 := by
  unfold cacheGet
  cases h : lookupKey c k with
  | some w => exact List.suffix_refl c
  | none => exact List.suffix_cons (k, v) c

theorem cacheGet_nodup {α : Type} (c : List (String × α)) (k : String) (v : α)
    (hnd : (c.map Prod.fst).Nodup) : (((cacheGet c k v).1).map Prod.fst).Nodup := by
  unfold cacheGet
  cases h : lookupKey c k with
  | some w => exact hnd
  | none =>
    show ((((k, v) :: c)).map Prod.fst).Nodup
    rw [List.map_cons]
    exact List.nodup_cons.mpr ⟨lookupKey_none_not_mem c k h, hnd⟩

theorem cacheGet_replay {α : Type} {c F : List (String × α)} {k : String} {v : α}
    (hsuf : (cacheGet c k v).1 <:+ F) (hnd : (F.map Prod.fst).Nodup) :
    cacheGet F k v = (F, (cacheGet c k v).2) := by
  cases h : lookupKey c k with
  | some w =>
    have h1 : cacheGet c k v = (c, w) := by
      unfold cacheGet
      rw [h]
    rw [h1] at hsuf
    have hc : c <:+ F := hsuf
    have hlf : lookupKey F k = some w := mem_lookupKey hnd (hc.subset (lookupKey_mem h))
    have h2 : cacheGet F k v = (F, w) := by
      unfold cacheGet
      rw [hlf]
    rw [h1, h2]
  | none =>
    have h1 : cacheGet c k v = ((k, v) :: c, v) := by
      unfold cacheGet
      rw [h]
    rw [h1] at hsuf
    have hc : ((k, v) :: c) <:+ F := hsuf
    have hlf : lookupKey F k = some v :=
      mem_lookupKey hnd (hc.subset (List.mem_cons_self _ _))
    have h2 : cacheGet F k v = (F, v) := by
      unfold cacheGet
      rw [hlf]
    rw [h1, h2]

end FanvueSync

namespace FanvueSync

theorem spendingScan_suffix (cl : Client) (m : Nat)
    (c : List (String × Option FanInsights)) (users : List PUser) :
    c <:+ (spendingScan cl m c users).1 := by
  induction users generalizing c with
  | nil => exact List.suffix_refl c
  | cons u us ih =>
    exact (cacheGet_suffix c u.uuid (cl.insights u.uuid)).trans
      (ih (cacheGet c u.uuid (cl.insights u.uuid)).1)

theorem spendingScan_nodup (cl : Client) (m : Nat)
    (c : List (String × Option FanInsights)) (users : List PUser)
    (h : (c.map Prod.fst).Nodup) :
    (((spendingScan cl m c users).1).map Prod.fst).Nodup := by
  induction users generalizing c with
  | nil => exact h
  | cons u us ih =>
    exact ih (cacheGet c u.uuid (cl.insights u.uuid)).1
      (cacheGet_nodup c u.uuid (cl.insights u.uuid) h)

theorem spendingScan_replay (cl : Client) (m : Nat)
    (F : List (String × Option FanInsights)) (users : List PUser) :
    ∀ c : List (String × Option FanInsights),
    (spendingScan cl m c users).1 <:+ F → ((F.map Prod.fst)).Nodup →
    spendingScan cl m F users = (F, (spendingScan cl m c users).2) := by
  induction users with
  | nil =>
    intro c _ _
    rfl
  | cons u us ih =>
    intro c hsuf hnd
    have hsuf1 : (spendingScan cl m (cacheGet c u.uuid (cl.insights u.uuid)).1 us).1 <:+ F :=
      hsuf
    have hcg := cacheGet_replay
      ((spendingScan_suffix cl m (cacheGet c u.uuid (cl.insights u.uuid)).1 us).trans hsuf1)
      hnd
    have hrest := ih (cacheGet c u.uuid (cl.insights u.uuid)).1 hsuf1 hnd
    have e1 : spendingScan cl m F (u :: us)
        = ((spendingScan cl m (get_user_total_spend F cl u.uuid).1 us).1,
           if m ≤ (get_user_total_spend F cl u.uuid).2
           then insert u.uuid (spendingScan cl m (get_user_total_spend F cl u.uuid).1 us).2
           else (spendingScan cl m (get_user_total_spend F cl u.uuid).1 us).2) := rfl
    have e2 : spendingScan cl m c (u :: us)
        = ((spendingScan cl m (get_user_total_spend c cl u.uuid).1 us).1,
           if m ≤ (get_user_total_spend c cl u.uuid).2
           then insert u.uuid (spendingScan cl m (get_user_total_spend c cl u.uuid).1 us).2
           else (spendingScan cl m (get_user_total_spend c cl u.uuid).1 us).2) := rfl
    have e3 : get_user_total_spend F cl u.uuid
        = (F, spendOf (cacheGet c u.uuid (cl.insights u.uuid)).2) := by
      unfold get_user_total_spend get_user_insights
      rw [hcg]
    have e4 : get_user_total_spend c cl u.uuid
        = ((cacheGet c u.uuid (cl.insights u.uuid)).1,
           spendOf (cacheGet c u.uuid (cl.insights u.uuid)).2) := rfl
    rw [e1, e2]
    simp only [e3, e4, hrest]

end FanvueSync

namespace FanvueSync

theorem eval_rule_unlock_eq (e : Engine) (cl : Client) (subs users : List PUser)
    (cc : String) :
    eval_rule e cl subs users (MRule.unlock (some cc))
      = if cc = "" then (e, (∅ : Finset String))
        else (e, get_unlockers e.store.purchases cc) := rfl

theorem eval_rule_list_eq (e : Engine) (cl : Client) (subs users : List PUser)
    (l : String) (lt : Option String) :
    eval_rule e cl subs users (MRule.fanvue_list (some l) lt)
      = if l = "" then (e, (∅ : Finset String))
        else ({ e with list_cache :=
            (get_list_members e.list_cache cl l (lt.getD "custom")).1 },
          (get_list_members e.list_cache cl l (lt.getD "custom")).2) := rfl

theorem eval_rule_growth (e : Engine) (cl : Client) (subs users : List PUser)
    (r : MRule) :
    e.user_cache <:+ (eval_rule e cl subs users r).1.user_cache ∧
    e.list_cache <:+ (eval_rule e cl subs users r).1.list_cache ∧
    (eval_rule e cl subs users r).1.store = e.store := by
  cases r with
  | subscription act => exact ⟨List.suffix_refl _, List.suffix_refl _, rfl⟩
  | top_spender => exact ⟨List.suffix_refl _, List.suffix_refl _, rfl⟩
  | unknown => exact ⟨List.suffix_refl _, List.suffix_refl _, rfl⟩
  | spending m =>
    exact ⟨spendingScan_suffix cl (m.getD 0) e.user_cache users,
      List.suffix_refl _, rfl⟩
  | unlock cid =>
    cases cid with
    | none => exact ⟨List.suffix_refl _, List.suffix_refl _, rfl⟩
    | some cc =>
      rw [eval_rule_unlock_eq]
      by_cases hc : cc = ""
      · rw [if_pos hc]
        exact ⟨List.suffix_refl _, List.suffix_refl _, rfl⟩
      · rw [if_neg hc]
        exact ⟨List.suffix_refl _, List.suffix_refl _, rfl⟩
  | fanvue_list lu lt =>
    cases lu with
    | none => exact ⟨List.suffix_refl _, List.suffix_refl _, rfl⟩
    | some l =>
      rw [eval_rule_list_eq]
      by_cases hle : l = ""
      · rw [if_pos hle]
        exact ⟨List.suffix_refl _, List.suffix_refl _, rfl⟩
      · rw [if_neg hle]
        exact ⟨List.suffix_refl _,
          cacheGet_suffix e.list_cache _ _, rfl⟩

theorem eval_rule_nodup (e : Engine) (cl : Client) (subs users : List PUser)
    (r : MRule) (hu : ((e.user_cache).map Prod.fst).Nodup)
    (hl : ((e.list_cache).map Prod.fst).Nodup) :
    (((eval_rule e cl subs users r).1.user_cache).map Prod.fst).Nodup ∧
    (((eval_rule e cl subs users r).1.list_cache).map Prod.fst).Nodup := by
  cases r with
  | subscription act => exact ⟨hu, hl⟩
  | top_spender => exact ⟨hu, hl⟩
  | unknown => exact ⟨hu, hl⟩
  | spending m => exact ⟨spendingScan_nodup cl (m.getD 0) e.user_cache users hu, hl⟩
  | unlock cid =>
    cases cid with
    | none => exact ⟨hu, hl⟩
    | some cc =>
      rw [eval_rule_unlock_eq]
      by_cases hc : cc = ""
      · rw [if_pos hc]
        exact ⟨hu, hl⟩
      · rw [if_neg hc]
        exact ⟨hu, hl⟩
  | fanvue_list lu lt =>
    cases lu with
    | none => exact ⟨hu, hl⟩
    | some l =>
      rw [eval_rule_list_eq]
      by_cases hle : l = ""
      · rw [if_pos hle]
        exact ⟨hu, hl⟩
      · rw [if_neg hle]
        exact ⟨hu, cacheGet_nodup e.list_cache _ _ hl⟩

theorem eval_rule_replay (cl : Client) (subs users : List PUser) (r : MRule)
    (e : Engine) (Fu : List (String × Option FanInsights))
    (Fl : List (String × Finset String)) (stE : StoreState)
    (hu : (eval_rule e cl subs users r).1.user_cache <:+ Fu)
    (hl : (eval_rule e cl subs users r).1.list_cache <:+ Fl)
    (hnu : (Fu.map Prod.fst).Nodup) (hnl : (Fl.map Prod.fst).Nodup)
    (hst : stE.purchases = e.store.purchases) :
    eval_rule (⟨Fu, Fl, stE⟩ : Engine) cl subs users r
      = ((⟨Fu, Fl, stE⟩ : Engine), (eval_rule e cl subs users r).2) := by
  cases r with
  | subscription act => rfl
  | top_spender => rfl
  | unknown => rfl
  | spending m =>
    have hsc : (spendingScan cl (m.getD 0) e.user_cache users).1 <:+ Fu := hu
    have hs := spendingScan_replay cl (m.getD 0) Fu users e.user_cache hsc hnu
    have e1 : eval_rule (⟨Fu, Fl, stE⟩ : Engine) cl subs users (MRule.spending m)
        = ({ (⟨Fu, Fl, stE⟩ : Engine) with user_cache :=
            (spendingScan cl (m.getD 0) Fu users).1 },
          (spendingScan cl (m.getD 0) Fu users).2) := rfl
    have e2 : eval_rule e cl subs users (MRule.spending m)
        = ({ e with user_cache := (spendingScan cl (m.getD 0) e.user_cache users).1 },
          (spendingScan cl (m.getD 0) e.user_cache users).2) := rfl
    rw [e1, e2]
    simp only [hs]
  | unlock cid =>
    cases cid with
    | none => rfl
    | some cc =>
      rw [eval_rule_unlock_eq, eval_rule_unlock_eq]
      by_cases hc : cc = ""
      · rw [if_pos hc, if_pos hc]
      · rw [if_neg hc, if_neg hc]
        show ((⟨Fu, Fl, stE⟩ : Engine), get_unlockers stE.purchases cc)
          = ((⟨Fu, Fl, stE⟩ : Engine), get_unlockers e.store.purchases cc)
        rw [hst]
  | fanvue_list lu lt =>
    cases lu with
    | none => rfl
    | some l =>
      by_cases hle : l = ""
      · rw [eval_rule_list_eq, eval_rule_list_eq, if_pos hle, if_pos hle]
      · rw [eval_rule_list_eq e cl subs users l lt, if_neg hle] at hl
        have hsc : (cacheGet e.list_cache (list_key (lt.getD "custom") l)
            (fetch_list cl l (lt.getD "custom"))).1 <:+ Fl := hl
        have hg := cacheGet_replay hsc hnl
        rw [eval_rule_list_eq, eval_rule_list_eq, if_neg hle, if_neg hle]
        have hg' : get_list_members Fl cl l (lt.getD "custom")
            = (Fl, (get_list_members e.list_cache cl l (lt.getD "custom")).2) := hg
        simp only [hg']

end FanvueSync

namespace FanvueSync

theorem roomStep_growth (cl : Client) (subs users : List PUser)
    (acc : Engine × Option MRule × (String → Finset String))
    (rc : String × RulesConfig) :
    acc.1.user_cache <:+ (roomStep cl subs users acc rc).1.user_cache ∧
    acc.1.list_cache <:+ (roomStep cl subs users acc rc).1.list_cache ∧
    (roomStep cl subs users acc rc).1.store = acc.1.store := by
  unfold roomStep
  cases hlr : lastRuleOf acc.2.1 rc.2 with
  | none => exact ⟨List.suffix_refl _, List.suffix_refl _, rfl⟩
  | some r =>
    exact ⟨(eval_rule_growth acc.1 cl subs users r).1,
      (eval_rule_growth acc.1 cl subs users r).2.1,
      (eval_rule_growth acc.1 cl subs users r).2.2⟩

theorem roomStep_nodup (cl : Client) (subs users : List PUser)
    (acc : Engine × Option MRule × (String → Finset String))
    (rc : String × RulesConfig)
    (hu : ((acc.1.user_cache).map Prod.fst).Nodup)
    (hl : ((acc.1.list_cache).map Prod.fst).Nodup) :
    (((roomStep cl subs users acc rc).1.user_cache).map Prod.fst).Nodup ∧
    (((roomStep cl subs users acc rc).1.list_cache).map Prod.fst).Nodup := by
  unfold roomStep
  cases hlr : lastRuleOf acc.2.1 rc.2 with
  | none => exact ⟨hu, hl⟩
  | some r => exact eval_rule_nodup acc.1 cl subs users r hu hl

theorem foldRooms_growth (cl : Client) (subs users : List PUser)
    (rooms : List (String × RulesConfig)) :
    ∀ acc : Engine × Option MRule × (String → Finset String),
    acc.1.user_cache <:+
      ((rooms.foldl (roomStep cl subs users) acc)).1.user_cache ∧
    acc.1.list_cache <:+
      ((rooms.foldl (roomStep cl subs users) acc)).1.list_cache ∧
    ((rooms.foldl (roomStep cl subs users) acc)).1.store = acc.1.store := by
  induction rooms with
  | nil => exact fun acc => ⟨List.suffix_refl _, List.suffix_refl _, rfl⟩
  | cons rc rs ih =>
    intro acc
    simp only [List.foldl_cons]
    obtain ⟨g1, g2, g3⟩ := roomStep_growth cl subs users acc rc
    obtain ⟨f1, f2, f3⟩ := ih (roomStep cl subs users acc rc)
    exact ⟨g1.trans f1, g2.trans f2, by rw [f3, g3]⟩

theorem foldRooms_nodup (cl : Client) (subs users : List PUser)
    (rooms : List (String × RulesConfig)) :
    ∀ acc : Engine × Option MRule × (String → Finset String),
    ((acc.1.user_cache).map Prod.fst).Nodup →
    ((acc.1.list_cache).map Prod.fst).Nodup →
    ((((rooms.foldl (roomStep cl subs users) acc)).1.user_cache).map Prod.fst).Nodup ∧
    ((((rooms.foldl (roomStep cl subs users) acc)).1.list_cache).map Prod.fst).Nodup := by
  induction rooms with
  | nil => exact fun acc hu hl => ⟨hu, hl⟩
  | cons rc rs ih =>
    intro acc hu hl
    simp only [List.foldl_cons]
    obtain ⟨n1, n2⟩ := roomStep_nodup cl subs users acc rc hu hl
    exact ih (roomStep cl subs users acc rc) n1 n2

theorem roomStep_replay (cl : Client) (subs users : List PUser)
    (rc : String × RulesConfig) (e : Engine) (lr : Option MRule)
    (map : String → Finset String) (Fu : List (String × Option FanInsights))
    (Fl : List (String × Finset String)) (stE : StoreState)
    (hu : (roomStep cl subs users (e, lr, map) rc).1.user_cache <:+ Fu)
    (hl : (roomStep cl subs users (e, lr, map) rc).1.list_cache <:+ Fl)
    (hnu : (Fu.map Prod.fst).Nodup) (hnl : (Fl.map Prod.fst).Nodup)
    (hst : stE.purchases = e.store.purchases) :
    roomStep cl subs users ((⟨Fu, Fl, stE⟩ : Engine), lr, map) rc
      = ((⟨Fu, Fl, stE⟩ : Engine),
         (roomStep cl subs users (e, lr, map) rc).2.1,
         (roomStep cl subs users (e, lr, map) rc).2.2) := by
  unfold roomStep at hu hl ⊢
  cases hlr : lastRuleOf lr rc.2 with
  | none => rfl
  | some r =>
    have hlr' : lastRuleOf (e, lr, map).2.1 rc.2 = some r := hlr
    rw [hlr'] at hu hl
    have hu1 : (eval_rule e cl subs users r).1.user_cache <:+ Fu := hu
    have hl1 : (eval_rule e cl subs users r).1.list_cache <:+ Fl := hl
    have her := eval_rule_replay cl subs users r e Fu Fl stE hu1 hl1 hnu hnl hst
    simp only [her]

end FanvueSync

namespace FanvueSync

theorem sync_earnings_purchases (st : StoreState) (events : List Tx)
    (errAt : Option Nat) :
    (sync_earnings st events errAt).purchases
      = (((processedEvents events errAt)).foldl insertTx st).purchases := by
  cases errAt with
  | some k => rfl
  | none =>
    show (match syncMax st.cursor events with
      | none => events.foldl insertTx st
      | some m =>
        if m = "" then events.foldl insertTx st
        else if st.cursor = some m then events.foldl insertTx st
        else { events.foldl insertTx st with cursor := some m }).purchases
      = ((events.foldl insertTx st)).purchases
    cases syncMax st.cursor events with
    | none => rfl
    | some m =>
      show (if m = "" then events.foldl insertTx st
        else if st.cursor = some m then events.foldl insertTx st
        else { events.foldl insertTx st with cursor := some m }).purchases
        = ((events.foldl insertTx st)).purchases
      by_cases h1 : m = ""
      · rw [if_pos h1]
      · rw [if_neg h1]
        by_cases h2 : st.cursor = some m
        · rw [if_pos h2]
        · rw [if_neg h2]

theorem foldl_insertTx_noop (st : StoreState) (ts : List Tx)
    (h : ∀ t ∈ ts, ∀ x, extractTriple t = some x →
      hasPurchase st.purchases x.1 x.2.1 = true) :
    ts.foldl insertTx st = st := by
  induction ts with
  | nil => rfl
  | cons t ts ih =>
    have h0 : insertTx st t = st := by
      cases hx : extractTriple t with
      | none =>
        unfold insertTx
        rw [hx]
      | some x =>
        unfold insertTx
        rw [hx]
        have hadd : add_purchase st.purchases x.1 x.2.1 x.2.2 = st.purchases := by
          unfold add_purchase
          rw [if_pos (h t (List.mem_cons_self t ts) x hx)]
        show StoreState.mk (add_purchase st.purchases x.1 x.2.1 x.2.2) st.cursor = st
        rw [hadd]
    simp only [List.foldl_cons, h0]
    exact ih (fun t2 ht2 x hx => h t2 (List.mem_cons_of_mem t ht2) x hx)

theorem sync_earnings_purchases_idem (st : StoreState) (events : List Tx)
    (errAt : Option Nat) :
    (sync_earnings (sync_earnings st events errAt) events errAt).purchases
      = (sync_earnings st events errAt).purchases := by
  have pre : ∀ t ∈ processedEvents events errAt, ∀ x, extractTriple t = some x →
      hasPurchase (sync_earnings st events errAt).purchases x.1 x.2.1 = true := by
    intro t ht x hx
    rw [sync_earnings_purchases st events errAt]
    exact foldl_insertTx_hasPurchase st (processedEvents events errAt) t ht x hx
  rw [sync_earnings_purchases (sync_earnings st events errAt) events errAt,
    foldl_insertTx_noop (sync_earnings st events errAt)
      (processedEvents events errAt) pre]

theorem foldRooms_replay (cl : Client) (subs users : List PUser)
    (rooms : List (String × RulesConfig)) :
    ∀ (e : Engine) (lr : Option MRule) (map : String → Finset String)
      (Fu : List (String × Option FanInsights))
      (Fl : List (String × Finset String)) (stE : StoreState),
    (rooms.foldl (roomStep cl subs users) (e, lr, map)).1.user_cache <:+ Fu →
    (rooms.foldl (roomStep cl subs users) (e, lr, map)).1.list_cache <:+ Fl →
    (Fu.map Prod.fst).Nodup → (Fl.map Prod.fst).Nodup →
    stE.purchases = e.store.purchases →
    rooms.foldl (roomStep cl subs users) ((⟨Fu, Fl, stE⟩ : Engine), lr, map)
      = ((⟨Fu, Fl, stE⟩ : Engine),
         (rooms.foldl (roomStep cl subs users) (e, lr, map)).2.1,
         (rooms.foldl (roomStep cl subs users) (e, lr, map)).2.2) := by
  induction rooms with
  | nil =>
    intro e lr map Fu Fl stE hu hl hnu hnl hst
    rfl
  | cons rc rs ih =>
    intro e lr map Fu Fl stE hu hl hnu hnl hst
    simp only [List.foldl_cons] at hu hl ⊢
    obtain ⟨f1, f2, f3⟩ :=
      foldRooms_growth cl subs users rs (roomStep cl subs users (e, lr, map) rc)
    have hu1 : (roomStep cl subs users (e, lr, map) rc).1.user_cache <:+ Fu :=
      f1.trans hu
    have hl1 : (roomStep cl subs users (e, lr, map) rc).1.list_cache <:+ Fl :=
      f2.trans hl
    have hstep := roomStep_replay cl subs users rc e lr map Fu Fl stE
      hu1 hl1 hnu hnl hst
    rw [hstep]
    have hst1 : stE.purchases
        = (roomStep cl subs users (e, lr, map) rc).1.store.purchases := by
      rw [(roomStep_growth cl subs users (e, lr, map) rc).2.2]
      exact hst
    have hrs := ih (roomStep cl subs users (e, lr, map) rc).1
      (roomStep cl subs users (e, lr, map) rc).2.1
      (roomStep cl subs users (e, lr, map) rc).2.2 Fu Fl stE hu hl hnu hnl hst1
    exact hrs

/-- C9 amended: the per-user-insight and per-list caches belong to the
engine object and survive across compute_room_membership calls (see the
counterexample), but rerunning on the same engine against the SAME upstream
client changes nothing: the second run's mapping equals the first run's
(equivalently, a freshly constructed engine's), because every cache entry a
rerun hits holds exactly the value the fresh run fetched, and re-syncing the
ledger is idempotent on the purchases table. -/
theorem compute_membership_rerun_equals_fresh (cl : Client)
    (rooms : List (String × RulesConfig)) :
    (compute_room_membership (compute_room_membership initEngine cl rooms).1 cl rooms).2
      = (compute_room_membership initEngine cl rooms).2 := by
  obtain ⟨hnu, hnl⟩ := foldRooms_nodup cl cl.subscribers (all_users_of cl) rooms
    ((⟨[], [], sync_earnings initStore cl.earnings cl.earningsErr⟩ : Engine), none,
      fun _ => (∅ : Finset String)) (by simp) (by simp)
  obtain ⟨g1, g2, g3⟩ := foldRooms_growth cl cl.subscribers (all_users_of cl) rooms
    ((⟨[], [], sync_earnings initStore cl.earnings cl.earningsErr⟩ : Engine), none,
      fun _ => (∅ : Finset String))
  have hpur : (sync_earnings
        (rooms.foldl (roomStep cl cl.subscribers (all_users_of cl))
          ((⟨[], [], sync_earnings initStore cl.earnings cl.earningsErr⟩ : Engine), none,
            fun _ => (∅ : Finset String))).1.store cl.earnings cl.earningsErr).purchases
      = ((⟨[], [], sync_earnings initStore cl.earnings cl.earningsErr⟩ : Engine)).store.purchases := by
    rw [g3]
    exact sync_earnings_purchases_idem initStore cl.earnings cl.earningsErr
  have hrep := foldRooms_replay cl cl.subscribers (all_users_of cl) rooms
    (⟨[], [], sync_earnings initStore cl.earnings cl.earningsErr⟩ : Engine) none
    (fun _ => (∅ : Finset String))
    (rooms.foldl (roomStep cl cl.subscribers (all_users_of cl))
      ((⟨[], [], sync_earnings initStore cl.earnings cl.earningsErr⟩ : Engine), none,
        fun _ => (∅ : Finset String))).1.user_cache
    (rooms.foldl (roomStep cl cl.subscribers (all_users_of cl))
      ((⟨[], [], sync_earnings initStore cl.earnings cl.earningsErr⟩ : Engine), none,
        fun _ => (∅ : Finset String))).1.list_cache
    (sync_earnings
      (rooms.foldl (roomStep cl cl.subscribers (all_users_of cl))
        ((⟨[], [], sync_earnings initStore cl.earnings cl.earningsErr⟩ : Engine), none,
          fun _ => (∅ : Finset String))).1.store cl.earnings cl.earningsErr)
    (List.suffix_refl _) (List.suffix_refl _) hnu hnl hpur
  show (rooms.foldl (roomStep cl cl.subscribers (all_users_of cl))
      ((⟨(rooms.foldl (roomStep cl cl.subscribers (all_users_of cl))
          ((⟨[], [], sync_earnings initStore cl.earnings cl.earningsErr⟩ : Engine), none,
            fun _ => (∅ : Finset String))).1.user_cache,
        (rooms.foldl (roomStep cl cl.subscribers (all_users_of cl))
          ((⟨[], [], sync_earnings initStore cl.earnings cl.earningsErr⟩ : Engine), none,
            fun _ => (∅ : Finset String))).1.list_cache,
        sync_earnings
          (rooms.foldl (roomStep cl cl.subscribers (all_users_of cl))
            ((⟨[], [], sync_earnings initStore cl.earnings cl.earningsErr⟩ : Engine), none,
              fun _ => (∅ : Finset String))).1.store cl.earnings cl.earningsErr⟩ : Engine),
       none, fun _ => (∅ : Finset String))).2.2
    = (rooms.foldl (roomStep cl cl.subscribers (all_users_of cl))
        ((⟨[], [], sync_earnings initStore cl.earnings cl.earningsErr⟩ : Engine), none,
          fun _ => (∅ : Finset String))).2.2
  rw [hrep]

end FanvueSync
